import Mathlib

/-!
Shallow embedding of the image-store registry core of this repository:
`registry/storage/searcher.go`, `repoadmin/repoadmin.go` and the pull
client package.  Byte contents are `List Nat`, the storage driver and
the client filesystem are finite association lists, and the external
collaborators (hash function, HTTP transport, UUID generation) are
explicit function parameters.
-/

/-- Bytes of a file, blob or chunk. -/
abbrev Bytes := List Nat

/-- Association-list lookup (first binding wins); models `GetContent` /
`os.Open` on a finite key-value state. -/
def alookup {α β : Type} [DecidableEq α] : List (α × β) → α → Option β
  | [], _ => none
  | (k, v) :: rest, q => if k = q then some v else alookup rest q

/-- Insert or replace the binding for a key; models `PutContent` / a file
write. -/
def aupdate {α β : Type} [DecidableEq α] : List (α × β) → α → β → List (α × β)
  | [], k, v => [(k, v)]
  | (k', v') :: rest, k, v =>
    if k' = k then (k, v) :: rest else (k', v') :: aupdate rest k v

/-- Delete every binding for a key; models `os.Remove`. -/
def aremove {α β : Type} [DecidableEq α] : List (α × β) → α → List (α × β)
  | [], _ => []
  | (k', v') :: rest, k =>
    if k' = k then aremove rest k else (k', v') :: aremove rest k

/-- ASCII lower-casing of one character; models the effect of Go
`strings.ToLower` character-wise. -/
def lowerChar (c : Char) : Char :=
  if 'A' ≤ c ∧ c ≤ 'Z' then Char.ofNat (c.toNat + 32) else c

/-- Models Go `strings.ToLower` (ASCII range, which covers names, tags and
hex digests). -/
def strToLower (s : String) : String := String.mk (s.data.map lowerChar)

/-- Whitespace test for `strings.TrimSpace`. -/
def isSpaceChar (c : Char) : Bool := c = ' ' ∨ c = '\t' ∨ c = '\n' ∨ c = '\r'

/-- Models Go `strings.TrimSpace`. -/
def strTrim (s : String) : String :=
  String.mk (((s.data.dropWhile isSpaceChar).reverse.dropWhile isSpaceChar).reverse)

/-- Boolean string-prefix test; models Go `strings.HasPrefix` and the
driver's prefix listing. -/
def strIsPre (p s : String) : Bool := p.data.isPrefixOf s.data

/-- Models Go `strings.TrimPrefix`. -/
def trimPre (s p : String) : String :=
  if strIsPre p s then String.mk (s.data.drop p.data.length) else s

/-- Split a character list at a separator character (helper for digest
shape validation). -/
def splitCharsOn (sep : Char) : List Char → List (List Char)
  | [] => [[]]
  | c :: cs =>
    let r := splitCharsOn sep cs
    if c = sep then [] :: r
    else
      match r with
      | [] => [[c]]
      | h :: t => (c :: h) :: t

/-- Hex-digit test for digest bodies. -/
def isHexChar (c : Char) : Bool := c.isDigit || ('a' ≤ c && c ≤ 'f')

/-- Modelled from the spec: `utils.IsDigest` is not under `src/`; the spec
defines a digest as a fixed-format content hash `algorithm:hex`. -/
def IsDigest (s : String) : Bool :=
  match splitCharsOn ':' s.data with
  | [alg, hex] =>
    (!alg.isEmpty) && (!hex.isEmpty) && alg.all (fun c => c.isAlpha || c.isDigit)
      && hex.all isHexChar
  | _ => false

/-- Modelled from the spec: `utils.ParseImageId` is not under `src/`; the
spec says identifier validation checks the digest shape (`algorithm:hex`),
returning a parsed value on success and nil on failure. -/
def ParseImageId (s : String) : Option String :=
  if IsDigest s then some s else none

/-- Modelled from the spec: `utils.IsBlobDigest` is not under `src/`; the
spec uses the same `algorithm:hex` digest shape for blob digests. -/
def IsBlobDigest (s : String) : Bool := IsDigest s

namespace Storage

/-- The image manifest (`registry/storage/searcher.go` lines 16-27). -/
structure ImageManifest where
  Id : String
  Parents : List String
  Blobsum : String
  Created : String
  Author : String
  Arch : String
  Desc : String
  Size : Int
  Name : String
deriving DecidableEq, Repr

/-- Models `ImageManifest.String()` (`searcher.go` lines 29-33): an
injective textual rendering standing in for the external `json.Marshal`. -/
def ImageManifest.render (imf : ImageManifest) : String :=
  imf.Id ++ "|" ++ String.intercalate "," imf.Parents ++ "|" ++ imf.Blobsum
    ++ "|" ++ imf.Created ++ "|" ++ imf.Author ++ "|" ++ imf.Arch ++ "|"
    ++ imf.Desc ++ "|" ++ toString imf.Size ++ "|" ++ imf.Name

/-- `ImageManifest.Ok` (`searcher.go` lines 35-47): id must parse, size
must differ from zero, blobsum must be digest-shaped. -/
def ImageManifest.Ok (imf : ImageManifest) : Bool :=
  if (ParseImageId imf.Id).isNone then false
  else if imf.Size = 0 then false
  else IsBlobDigest imf.Blobsum

/-- `UploadInfo` (`searcher.go` lines 49-52). -/
structure UploadInfo where
  Digest : String
deriving DecidableEq, Repr

/-- Contents stored by the driver: either a manifest body or a plain text
payload (a tag pointer or a recorded upload checksum).  Abstracts the raw
bytes that `json.Marshal`/`json.Unmarshal` move in the source. -/
inductive Content where
  | manifest (m : ImageManifest)
  | text (s : String)
deriving DecidableEq, Repr

/-- The storage driver state behind `GetContent`/`PutContent`/`List`/`Stat`
(external collaborator, see spec section 6): a finite map from path keys
to contents. -/
abbrev Store := List (String × Content)

/-- Driver errors surfaced by the modelled driver. -/
inductive DriverErr where
  | pathNotFound
deriving DecidableEq, Repr

/-- Errors produced by the searcher; each constructor corresponds to one
`errors.New`/`fmt.Errorf`/`errcode` site in `searcher.go`. -/
inductive SearchErr where
  | notFound
  | internalNoManifest
  | ambiguous (refstr : String)
  | invalidManifest (ps : String)
  | decodeFailed
  | unexpectedDigest (idstr refstr : String)
  | mismatch
  | putManifestFailed
  | putTagFailed (refstr idstr : String)
  | invalidBlobDigest (digest : String)
  | conflict (resource : String)
  | driver (e : DriverErr)
deriving DecidableEq, Repr

/-- Modelled from the spec: the path-spec value types (`manifestsPathSpec`,
`imageJsonPathSpec`, ...) are not under `src/`; spec section 4.1 makes the
resolver a pure map from logical identities to storage locations.
Manifest-by-digest location for `(name, id)`. -/
def imageJsonPathSpec (name id : String) : String :=
  "manifests/" ++ name ++ "/" ++ id

/-- Modelled from the spec: tag pointer location for `(name, tag)`. -/
def tagPathSpec (name tag : String) : String :=
  "tags/" ++ name ++ "/" ++ tag

/-- Modelled from the spec: tag directory for `name` (`tagsPathSpec`). -/
def tagsPathSpec (name : String) : String := "tags/" ++ name

/-- Modelled from the spec: canonical blob location for a digest
(`blobDigestPathSpec`); depends only on the digest. -/
def blobDigestPathSpec (digest : String) : String := "blobs/" ++ digest

/-- Modelled from the spec: upload checksum record location keyed by the
session id (`uploadCheckSumPathSpec`). -/
def uploadCheckSumPathSpec (name id : String) : String :=
  "uploads/" ++ name ++ "/" ++ id ++ "/checksum"

/-- Modelled from the spec: the upload location returned to the client
(`uploadUuidPathSpec.urlSpec`). -/
def uploadUuidUrlSpec (name id : String) : String :=
  "v1/" ++ name ++ "/blob-upload/" ++ id

/-- Driver `GetContent`: exact-key lookup, `PathNotFoundError` when the
key is absent. -/
def getContent (st : Store) (ps : String) : Except DriverErr Content :=
  match alookup st ps with
  | some c => .ok c
  | none => .error .pathNotFound

/-- Driver `List`: every stored key having `ps` as a string prefix, in
store order; `PathNotFoundError` when none has.  (Spec section 9 records
that short-digest resolution assumes exactly this prefix-listing
semantics.) -/
def driverList (st : Store) (ps : String) : Except DriverErr (List String) :=
  match (st.map Prod.fst).filter (fun k => strIsPre ps k) with
  | [] => .error .pathNotFound
  | ks => .ok ks

/-- Driver `Stat`: succeeds exactly when the key is present. -/
def stat (st : Store) (ps : String) : Bool := (alookup st ps).isSome

/-- Rendering of a stored content as the byte string `GetContent` returns:
a tag pointer yields its text, a manifest its serialized body. -/
def Content.asText : Content → String
  | .manifest m => m.render
  | .text s => s

/-- `getImageJson` (`searcher.go` lines 88-104): fetch, decode and
validate a manifest at an exact path. -/
def getImageJson (st : Store) (ps : String) : Except SearchErr ImageManifest :=
  match getContent st ps with
  | .error e => .error (.driver e)
  | .ok (.manifest imf) =>
    if imf.Ok then .ok imf else .error (.invalidManifest ps)
  | .ok (.text _) => .error .decodeFailed

/-- `ImageSearcher.GetManifest` (`searcher.go` lines 106-148). -/
def GetManifest (st : Store) (name ref : String) :
    Except SearchErr ImageManifest :=
  let refstr := strToLower ref
  let nm := strToLower name
  if IsDigest refstr then
    let ps := imageJsonPathSpec nm refstr
    match driverList st ps with
    | .error .pathNotFound => .error .notFound
    | .ok res =>
      match res with
      | [k] => getImageJson st k
      | [] => .error .internalNoManifest
      | _ => .error (.ambiguous refstr)
  else
    let tps := tagPathSpec nm refstr
    match getContent st tps with
    | .error e => .error (.driver e)
    | .ok buf =>
      let idstr := strToLower (strTrim buf.asText)
      if (ParseImageId idstr).isNone then
        .error (.unexpectedDigest idstr refstr)
      else
        getImageJson st (imageJsonPathSpec nm idstr)

/-- `ImageSearcher.PutManifest` (`searcher.go` lines 150-184).  Note: the
source builds `manifestsPathSpec` with `name: idstr` (line 169), i.e. the
manifest id is used where a repository name is expected; the embedding
reproduces that behaviour.  The modelled driver `PutContent` always
succeeds, so the two write-failure branches of the source are not
represented. -/
def PutManifest (st : Store) (_name ref : String) (imf : ImageManifest) :
    Store × Except SearchErr Unit :=
  let refstr := strToLower ref
  let idstr := strToLower imf.Id
  let isdigest := (ParseImageId refstr).isSome
  if isdigest ∧ refstr ≠ idstr then
    (st, .error .mismatch)
  else
    let ps := imageJsonPathSpec idstr idstr
    let st1 := aupdate st ps (.manifest imf)
    if isdigest then
      (st1, .ok ())
    else
      let tps := tagPathSpec idstr refstr
      (aupdate st1 tps (.text idstr), .ok ())

/-- `ImageSearcher.ListTags` (`searcher.go` lines 186-202).  The source
does not lower-case `name` here; the only driver error the model produces
is `PathNotFoundError`, which the source swallows into an empty listing. -/
def ListTags (st : Store) (name : String) : Except SearchErr (List String) :=
  let ps := tagsPathSpec name
  let xs := match driverList st ps with
    | .error .pathNotFound => []
    | .ok ks => ks
  .ok (xs.map (fun v => trimPre v (ps ++ "/")))

/-- `ImageSearcher.GetBlobPathSpec` (`searcher.go` lines 204-211). -/
def GetBlobPathSpec (_name digest : String) : Except SearchErr String :=
  let ps := blobDigestPathSpec digest
  if IsBlobDigest digest then .ok ps
  else .error (.invalidBlobDigest digest)

/-- `ImageSearcher.PrepareBlobUpload` (`searcher.go` lines 213-232).  The
generated UUID is an explicit argument `uu` (models `utils.NewUUID`); the
modelled `PutContent` always succeeds. -/
def PrepareBlobUpload (st : Store) (name : String) (info : UploadInfo)
    (uu : String) : Store × Except SearchErr String :=
  let digest := strTrim info.Digest
  let bps := blobDigestPathSpec digest
  if stat st bps then
    (st, .error (.conflict digest))
  else
    let ucps := uploadCheckSumPathSpec name uu
    let st1 := aupdate st ucps (.text digest)
    (st1, .ok (uploadUuidUrlSpec name uu))

end Storage

/-- The chunk split of `uploadFile` (`repoadmin/repoadmin.go` lines
55-100), one loop iteration per entry: the chunk at `offset` has length
`c` when `offset + c ≤ size` and `size % c` otherwise, and the bytes are
read with `fh.ReadAt(buffer, offset)` (error on a short read).  The fuel
argument bounds the iteration count, which the source bounds by the
strictly increasing offset; network and writer effects (`GetChunkWriter`,
`Write`, `Commit`) do not alter the produced chunk sequence and are
omitted. -/
def uploadChunksAux (file : Bytes) (size c : Nat) :
    Nat → Nat → Except String (List (Nat × Bytes))
  | 0, _ => .error "fuel exhausted"
  | fuel + 1, offset =>
    if offset < size then
      let blen := if offset + c ≤ size then c else size % c
      if (file.drop offset).length < blen then .error "read failed"
      else
        let buffer := (file.drop offset).take blen
        match uploadChunksAux file size c fuel (offset + c) with
        | .error e => .error e
        | .ok rest => .ok ((offset, buffer) :: rest)
    else .ok []

/-- The offset/chunk sequence produced by the `uploadFile` loop for a file
of declared size `size` split at chunk size `c` (`v1.BlobChunkSize` in the
source). -/
def uploadChunks (file : Bytes) (size c : Nat) :
    Except String (List (Nat × Bytes)) :=
  uploadChunksAux file size c (size + 1) 0

/-- Plain consecutive chunking of a byte list: first `c` bytes, then the
chunking of the rest.  Reference form used to state and prove properties
of `uploadChunks`. -/
def splitChunks (c : Nat) : Bytes → List Bytes
  | [] => []
  | x :: xs => (x :: xs.take (c - 1)) :: splitChunks c (xs.drop (c - 1))
termination_by b => b.length
decreasing_by
  simp only [List.length_drop, List.length_cons]
  omega

/-- Pair each chunk with its starting offset: `start`, `start + c`, ... -/
def withOffsets (c : Nat) : Nat → List Bytes → List (Nat × Bytes)
  | _, [] => []
  | start, b :: bs => (start, b) :: withOffsets c (start + c) bs

/-- Claim C8's wording for the final chunk's length, taken from the spec:
the final chunk has length `S mod C`, or the full size `S` when `S` is
smaller than one chunk. -/
def finalChunkLenClaim (S C actual : Nat) : Prop :=
  actual = S % C ∨ (S < C ∧ actual = S)

namespace Client

/-- Modelled from the spec: the client-side `v1.ImageManifest` schema is
not under `src/`; spec section 3 lists identity `Id`, `Name`, a single
scalar `Parent` reference (the field the pull orchestration walks),
`Blobsum` and the metadata fields. -/
structure ImageManifest where
  Id : String
  Name : String
  Parent : String
  Blobsum : String
  Created : String
  Author : String
  Arch : String
  Desc : String
  Size : Int
deriving DecidableEq, Repr

/-- Modelled from the spec: the client-side `v1.ImageManifest.Ok`
validation is not under `src/`; spec section 3 gives the invariant that
`Id` must pass identifier validation, `Size > 0` and `Blobsum` must be a
well-formed digest. -/
def ImageManifest.Ok (imf : ImageManifest) : Bool :=
  (ParseImageId imf.Id).isSome && decide (0 < imf.Size) && IsDigest imf.Blobsum

/-- Modelled from the spec: `v1.BlobManifest` is not under `src/`; spec
section 3 defines it as the ordered sequence of chunk digests whose
concatenation reproduces the blob. -/
structure BlobManifest where
  Chunks : List String
deriving DecidableEq, Repr

/-- Modelled from the spec: rendering of the client manifest written by
`writeLocalManifest` (`imf.String()`, external `json.Marshal`); an
injective textual stand-in. -/
def ImageManifest.render (imf : ImageManifest) : String :=
  imf.Id ++ "|" ++ imf.Name ++ "|" ++ imf.Parent ++ "|" ++ imf.Blobsum
    ++ "|" ++ imf.Created ++ "|" ++ imf.Author ++ "|" ++ imf.Arch ++ "|"
    ++ imf.Desc ++ "|" ++ toString imf.Size

/-- Client-side file paths, as component lists (`path.Join` in the source
appends components). -/
abbrev Path := List String

/-- The client machine's filesystem: a finite map from paths to byte
contents. -/
abbrev FS := List (Path × Bytes)

/-- Modelled from the spec: `GetImageManifestPath` is not under `src/`;
spec section 6 records one local manifest file per image id under a
`(name, id)` key. -/
def GetImageManifestPath (name id : String) : Path :=
  ["manifests", name, id]

/-- Modelled from the spec: `GetImageBlobPath` is not under `src/`; spec
section 6 records one local blob file per `(name, digest)`. -/
def GetImageBlobPath (name digest : String) : Path :=
  ["blobs", name, digest]

/-- Modelled from the spec: `GetImageFilePath` is not under `src/`; the
per-image file the blob is hard-linked to, keyed by `(name, id)`. -/
def GetImageFilePath (name id : String) : Path :=
  ["images", name, id]

/-- Modelled from the spec: `GetBlobDownloadDir` is not under `src/`; spec
section 6 records one scratch directory per in-flight download, keyed by
the pulled blob's identity. -/
def GetBlobDownloadDir (name tophash : String) : Path :=
  ["dl", name, tophash]

/-- Modelled from the spec: `v1.GetBlobChunkRoute` is not under `src/`;
the transfer channel is asked for a route per chunk (spec section 6). -/
def GetBlobChunkRoute (name tophash subhash : String) : String :=
  "v1/" ++ name ++ "/blobs/" ++ tophash ++ "/chunks/" ++ subhash

/-- The chunk transport: a route maps to the fetched body, or `none` for
a non-200 response (external collaborator `cln.Get`). -/
abbrev Net := String → Option Bytes

/-- The chunk hash (`utils.GetChunkDigest` / `utils.Sha256Sum`, external
collaborators): an explicit function parameter throughout. -/
abbrev DigestFn := Bytes → String

/-- `checkChunkDigest` (client source lines 265-283): open the file (error
when absent), re-hash it and compare with the declared digest. -/
def checkChunkDigest (digestFn : DigestFn) (fs : FS) (blobpath : Path)
    (digest : String) : Except String Unit :=
  match alookup fs blobpath with
  | none => .error "open failed"
  | some b =>
    if digestFn b = digest then .ok () else .error "image digest mismatch"

/-- `downloadChunk` (client source lines 106-131): skip when a local copy
already re-verifies; otherwise create the file (`O_CREATE`), fetch the
route and write the body.  A non-200 response leaves the created empty
file behind, exactly as the source does. -/
def downloadChunk (digestFn : DigestFn) (net : Net) (fs : FS)
    (dldir : Path) (subhash route : String) : FS × Except String Unit :=
  let dlfile := dldir ++ [subhash]
  match checkChunkDigest digestFn fs dlfile subhash with
  | .ok _ => (fs, .ok ())
  | .error _ =>
    let fs1 := if (alookup fs dlfile).isSome then fs else aupdate fs dlfile []
    match net route with
    | none => (fs1, .error ("failed to download chunk " ++ subhash))
    | some body => (aupdate fs1 dlfile body, .ok ())

/-- The per-chunk loop of `downloadChunks` (client source lines 143-154):
download each chunk, then independently re-verify it; a mismatch aborts
with a corruption error. -/
def downloadChunksLoop (digestFn : DigestFn) (net : Net)
    (name tophash : String) (dldir : Path) :
    FS → List String → FS × Except String Unit
  | fs, [] => (fs, .ok ())
  | fs, subhash :: rest =>
    let route := GetBlobChunkRoute name tophash subhash
    match downloadChunk digestFn net fs dldir subhash route with
    | (fs1, .error e) => (fs1, .error e)
    | (fs1, .ok _) =>
      match checkChunkDigest digestFn fs1 (dldir ++ [subhash]) subhash with
      | .error e => (fs1, .error ("chunk " ++ subhash ++ " corrupted: " ++ e))
      | .ok _ => downloadChunksLoop digestFn net name tophash dldir fs1 rest

/-- Read the chunk files back in declared order and concatenate them (the
combine loop of `downloadChunks`, client source lines 156-176). -/
def readChunks (fs : FS) (dldir : Path) :
    List String → Except String Bytes
  | [] => .ok []
  | subhash :: rest =>
    match alookup fs (dldir ++ [subhash]) with
    | none => .error ("failed to read chunk " ++ subhash)
    | some b =>
      match readChunks fs dldir rest with
      | .error e => .error e
      | .ok bs => .ok (b ++ bs)

/-- `downloadChunks` (client source lines 136-183): make the scratch
directory (implicit here), fetch and verify every chunk, write the
concatenation to the scratch image file, delete the chunk files and
return the image file path. -/
def downloadChunks (digestFn : DigestFn) (net : Net) (fs : FS)
    (bmf : BlobManifest) (name tophash : String) :
    FS × Except String Path :=
  let dldir := GetBlobDownloadDir name tophash
  match downloadChunksLoop digestFn net name tophash dldir fs bmf.Chunks with
  | (fs1, .error e) => (fs1, .error e)
  | (fs1, .ok _) =>
    let imgfile := dldir ++ [tophash]
    match readChunks fs1 dldir bmf.Chunks with
    | .error e => (fs1, .error e)
    | .ok content =>
      let fs2 := aupdate fs1 imgfile content
      let fs3 := bmf.Chunks.foldl (fun acc c => aremove acc (dldir ++ [c])) fs2
      (fs3, .ok imgfile)

/-- `finalizeBlobAndManifest` (client source lines 90-104): hard-link the
committed blob to the per-image file path (`os.Link` fails when the source
is missing or the destination already exists) and write the local
manifest file. -/
def finalizeBlobAndManifest (fs : FS) (blobpath : Path)
    (imf : ImageManifest) : FS × Except String Unit :=
  let dest := GetImageFilePath imf.Name imf.Id
  match alookup fs blobpath with
  | none => (fs, .error "failed to create image file")
  | some b =>
    if (alookup fs dest).isSome then (fs, .error "failed to create image file")
    else
      let fs1 := aupdate fs dest b
      let mpath := GetImageManifestPath imf.Name imf.Id
      (aupdate fs1 mpath (imf.render.data.map Char.toNat), .ok ())

/-- The blob-manifest fetch (`getBlobManifest`, client source lines
185-207): an explicit transport parameter from `(name, tophash)` to the
decoded chunk list or a transport/decode error. -/
abbrev BlobManifestFetch := String → String → Except String BlobManifest

/-- `doPull` (client source lines 69-88): fetch the blob manifest, run the
chunked download, rename the reconstructed file into the canonical blob
path and finalize. -/
def doPull (digestFn : DigestFn) (net : Net) (fbm : BlobManifestFetch)
    (fs : FS) (imf : ImageManifest) : FS × Except String Unit :=
  match fbm imf.Name imf.Blobsum with
  | .error e => (fs, .error e)
  | .ok bmf =>
    match downloadChunks digestFn net fs bmf imf.Name imf.Blobsum with
    | (fs1, .error e) => (fs1, .error e)
    | (fs1, .ok imgfile) =>
      let blobpath := GetImageBlobPath imf.Name imf.Blobsum
      match alookup fs1 imgfile with
      | none => (fs1, .error "failed to commit image blob")
      | some b =>
        let fs2 := aupdate (aremove fs1 imgfile) blobpath b
        finalizeBlobAndManifest fs2 blobpath imf

/-- The manifest fetch (`getImageManifest` transport part, client source
lines 209-235): `(name, reference)` to the decoded manifest or a
transport/decode error. -/
abbrev Server := String → String → Except String ImageManifest

/-- `getImageManifest` (client source lines 209-235): fetch, decode and
validate a manifest over the transport. -/
def getImageManifest (server : Server) (name reference : String) :
    Except String ImageManifest :=
  match server name reference with
  | .error e => .error e
  | .ok imf =>
    if imf.Ok then .ok imf
    else .error ("invalid image manifest for " ++ name ++ ":" ++ reference)

/-- The loop of `buildChain` (client source lines 15-37): walk `Parent`
references, fetching each ancestor's manifest; append it when its local
manifest file is absent, stop at the first locally present ancestor.  The
fuel bounds the walk, which the source leaves unbounded. -/
def buildChainLoop (server : Server) (fs : FS) :
    Nat → ImageManifest → List ImageManifest →
    Except String (List ImageManifest)
  | 0, _, _ => .error "chain walk fuel exhausted"
  | fuel + 1, cursor, res =>
    if cursor.Parent = "" then .ok res
    else
      match getImageManifest server cursor.Name cursor.Parent with
      | .error e => .error e
      | .ok imf =>
        if (alookup fs (GetImageManifestPath cursor.Name imf.Id)).isSome then
          .ok res
        else
          buildChainLoop server fs fuel imf (res ++ [imf])

/-- `buildChain` (client source lines 15-37): the to-pull list, starting
with the leaf. -/
def buildChain (server : Server) (fs : FS) (fuel : Nat)
    (leaf : ImageManifest) : Except String (List ImageManifest) :=
  buildChainLoop server fs fuel leaf [leaf]

/-- The in-place reversal loop of `Pull` (client source lines 56-58),
faithful to its index arithmetic: `i, j := 0, len(imfs)` and a swap of
`imfs[i]` with `imfs[j]` per iteration; an index beyond the end is a Go
runtime panic, surfaced here as an error value.  The fuel bounds the
iteration count (the source loop is bounded by `j - i`). -/
def reverseLoopAux {α : Type} :
    Nat → List α → Nat → Nat → Except String (List α)
  | 0, a, i, j => if i < j then .error "reverse fuel exhausted" else .ok a
  | fuel + 1, a, i, j =>
    if i < j then
      match a.get? i, a.get? j with
      | some x, some y =>
        reverseLoopAux fuel ((a.set i y).set j x) (i + 1) (j - 1)
      | _, _ => .error "index out of range"
    else .ok a

/-- The reversal step of `Pull` as written in the source: indices start at
`(0, len(imfs))`. -/
def reverseImfs {α : Type} (a : List α) : Except String (List α) :=
  reverseLoopAux a.length a 0 a.length

/-- Outcome of `Pull`: normal return values (`nil` or an error) or a Go
runtime panic. -/
inductive PullOutcome where
  | ok
  | err (e : String)
  | crash (e : String)
deriving DecidableEq, Repr

/-- The per-manifest loop of `Pull` (client source lines 60-64): `doPull`
each manifest, stopping at the first error. -/
def pullLoop (digestFn : DigestFn) (net : Net) (fbm : BlobManifestFetch) :
    FS → List ImageManifest → FS × PullOutcome
  | fs, [] => (fs, .ok)
  | fs, imf :: rest =>
    match doPull digestFn net fbm fs imf with
    | (fs1, .error e) => (fs1, .err e)
    | (fs1, .ok _) => pullLoop digestFn net fbm fs1 rest

/-- `Pull` (client source lines 40-67).  Two source behaviours are kept
verbatim: a `buildChain` error is answered with `return nil` (line 53),
and the reversal loop starts `j` at `len(imfs)` (line 56), which reads
one past the end of the slice. -/
def Pull (server : Server) (digestFn : DigestFn) (net : Net)
    (fbm : BlobManifestFetch) (fuel : Nat) (fs : FS)
    (name reference : String) : FS × PullOutcome :=
  match getImageManifest server name reference with
  | .error e => (fs, .err e)
  | .ok imf =>
    if (alookup fs (GetImageFilePath name imf.Id)).isSome then
      (fs, .err (name ++ ":" ++ imf.Id ++ " already exists"))
    else
      match buildChain server fs fuel imf with
      | .error _ => (fs, .ok)
      | .ok imfs =>
        match reverseImfs imfs with
        | .error e => (fs, .crash e)
        | .ok rev => pullLoop digestFn net fbm fs rev

end Client

/-- A concrete valid manifest used in witnesses and scenario theorems. -/
def demoManifest : Storage.ImageManifest :=
  ⟨"sha256:abc", [], "sha256:def", "", "", "x86", "", 5, "foo"⟩

/-- A one-manifest store for the short-digest resolution witness. -/
def c5Store : Storage.Store :=
  [(Storage.imageJsonPathSpec "foo" "sha256:abc",
    Storage.Content.manifest demoManifest)]

/-- The prefix filter `GetManifest` runs over the store's keys for a
digest reference (the listing of `driverList`). -/
def manifestPre (st : Storage.Store) (name ref : String) : List String :=
  (st.map Prod.fst).filter (fun k => strIsPre
    (Storage.imageJsonPathSpec (strToLower name) (strToLower ref)) k)

/-- Chain scenario, ancestor A: no parent. -/
def chainA : Client.ImageManifest :=
  ⟨"sha256:aa", "repo", "", "sha256:1a", "", "", "x86", "", 1⟩

/-- Chain scenario, middle manifest B: parent A. -/
def chainB : Client.ImageManifest :=
  ⟨"sha256:bb", "repo", "sha256:aa", "sha256:1b", "", "", "x86", "", 1⟩

/-- Chain scenario, leaf C: parent B. -/
def chainC : Client.ImageManifest :=
  ⟨"sha256:cc", "repo", "sha256:bb", "sha256:1c", "", "", "x86", "", 1⟩

/-- Registry transport for the chain scenario: resolves the tag `C` and
the three ids. -/
def chainServer : Client.Server := fun n r =>
  if n = "repo" ∧ (r = "C" ∨ r = "sha256:cc") then .ok chainC
  else if n = "repo" ∧ r = "sha256:bb" then .ok chainB
  else if n = "repo" ∧ r = "sha256:aa" then .ok chainA
  else .error "manifest not found"

/-- Client filesystem for the chain scenario: ancestor A is fully
materialized locally (manifest file, blob file and image file), B and C
are absent. -/
def chainFS : Client.FS :=
  [(Client.GetImageManifestPath "repo" "sha256:aa", [1]),
   (Client.GetImageBlobPath "repo" "sha256:1a", [9]),
   (Client.GetImageFilePath "repo" "sha256:aa", [9])]

/-- Transport for the swallowed-error scenario: the leaf reference `C`
resolves, but fetching its parent's manifest fails. -/
def brokenParentServer : Client.Server := fun n r =>
  if n = "repo" ∧ r = "C" then .ok chainC
  else .error "manifest not found"

/-- Blob-manifest transport for the corruption witness: `chainC`'s blob
has the single chunk digest `c1`. -/
def demoFbm : Client.BlobManifestFetch := fun n th =>
  if n = "repo" ∧ th = "sha256:1c" then .ok ⟨["c1"]⟩
  else .error "no blob manifest"

/-- Chunk transport for the corruption witness: the chunk route for `c1`
answers the bytes `[9]`. -/
def demoNet : Client.Net := fun r =>
  if r = Client.GetBlobChunkRoute "repo" "sha256:1c" "c1" then some [9]
  else none

/-- Chunk hash for the corruption witness: only `[1]` hashes to `c1`, so
the delivered bytes `[9]` are corrupt. -/
def demoDigest : Client.DigestFn := fun b =>
  if b = [1] then "c1" else "x"

/-! ## Lemmas and theorems -/

theorem alookup_aupdate {α β : Type} [DecidableEq α]
    (l : List (α × β)) (k : α) (v : β) (q : α) :
    alookup (aupdate l k v) q = if k = q then some v else alookup l q := by
  induction l with
  | nil => by_cases h : k = q <;> simp [aupdate, alookup, h]
  | cons e rest ih =>
    obtain ⟨k', v'⟩ := e
    by_cases h1 : k' = k
    · subst h1
      by_cases h2 : k' = q <;> simp [aupdate, alookup, h2]
    · by_cases h2 : k' = q
      · subst h2
        have : ¬ k = k' := fun h => h1 h.symm
        simp [aupdate, alookup, h1, this]
      · simp [aupdate, alookup, h1, h2, ih]

theorem alookup_aremove {α β : Type} [DecidableEq α]
    (l : List (α × β)) (k : α) (q : α) :
    alookup (aremove l k) q = if k = q then none else alookup l q := by
  induction l with
  | nil => by_cases h : k = q <;> simp [aremove, alookup, h]
  | cons e rest ih =>
    obtain ⟨k', v'⟩ := e
    by_cases h1 : k' = k
    · subst h1
      by_cases h2 : k' = q
      · subst h2; simp [aremove, alookup, ih]
      · have : ¬ k' = q := h2
        simp [aremove, alookup, ih, this]
    · by_cases h2 : k' = q
      · subst h2
        have : ¬ k = k' := fun h => h1 h.symm
        simp [aremove, alookup, h1, this]
      · simp [aremove, alookup, h1, h2, ih]

theorem alookup_aupdate_ne {α β : Type} [DecidableEq α]
    (l : List (α × β)) (k : α) (v : β) (q : α) (h : k ≠ q) :
    alookup (aupdate l k v) q = alookup l q := by
  simp [alookup_aupdate, h]

theorem alookup_aremove_ne {α β : Type} [DecidableEq α]
    (l : List (α × β)) (k : α) (q : α) (h : k ≠ q) :
    alookup (aremove l k) q = alookup l q := by
  simp [alookup_aremove, h]

theorem splitChunks_eq_nil_iff (c : Nat) (b : Bytes) :
    splitChunks c b = [] ↔ b = [] := by
  cases b <;> simp [splitChunks]

theorem splitChunks_flatten (c : Nat) (b : Bytes) :
    (splitChunks c b).flatten = b := by
  suffices h : ∀ (n : Nat) (b : Bytes), b.length = n →
      (splitChunks c b).flatten = b from h b.length b rfl
  intro n
  induction n using Nat.strong_induction_on with
  | _ n ih =>
    intro b hn
    cases b with
    | nil => simp [splitChunks]
    | cons x xs =>
      rw [splitChunks]
      have hlt : (xs.drop (c - 1)).length < n := by
        subst hn; simp [List.length_drop]; omega
      simp only [List.flatten_cons, ih _ hlt _ rfl, List.cons_append]
      simp [List.take_append_drop]

theorem splitChunks_cons_of_pos (c : Nat) (hc : 0 < c) (b : Bytes)
    (hb : b ≠ []) :
    splitChunks c b = b.take c :: splitChunks c (b.drop c) := by
  obtain ⟨n, rfl⟩ := Nat.exists_eq_succ_of_ne_zero (Nat.pos_iff_ne_zero.mp hc)
  cases b with
  | nil => exact absurd rfl hb
  | cons x xs =>
    rw [splitChunks]
    simp [List.take_succ_cons, List.drop_succ_cons]

theorem splitChunks_dropLast_length (c : Nat) (hc : 0 < c) (b : Bytes) :
    ∀ ch ∈ (splitChunks c b).dropLast, ch.length = c := by
  suffices h : ∀ (n : Nat) (b : Bytes), b.length = n →
      ∀ ch ∈ (splitChunks c b).dropLast, ch.length = c from h b.length b rfl
  intro n
  induction n using Nat.strong_induction_on with
  | _ n ih =>
    intro b hn
    cases b with
    | nil => simp [splitChunks]
    | cons x xs =>
      rw [splitChunks]
      by_cases hrest : xs.drop (c - 1) = []
      · simp [hrest, splitChunks]
      · have hne : splitChunks c (xs.drop (c - 1)) ≠ [] := by
          simpa [splitChunks_eq_nil_iff] using hrest
        obtain ⟨r0, rs, hr⟩ := List.exists_cons_of_ne_nil hne
        rw [hr]
        intro ch hch
        rw [List.dropLast_cons₂] at hch
        rcases List.mem_cons.mp hch with h0 | h1
        · subst h0
          have hxs : c - 1 ≤ xs.length := by
            by_contra hgt
            exact hrest (List.drop_eq_nil_of_le (by omega))
          simp [List.length_take]
          omega
        · have hlt : (xs.drop (c - 1)).length < n := by
            subst hn; simp [List.length_drop]; omega
          have := ih _ hlt (xs.drop (c - 1)) rfl ch
          rw [hr] at this
          exact this h1

theorem splitChunks_getLast_length (c : Nat) (hc : 0 < c) (b : Bytes)
    (hb : b ≠ []) :
    (splitChunks c b).getLast?.map List.length
      = some (if b.length % c = 0 then c else b.length % c) := by
  suffices h : ∀ (n : Nat) (b : Bytes), b.length = n → b ≠ [] →
      (splitChunks c b).getLast?.map List.length
        = some (if b.length % c = 0 then c else b.length % c) from
    h b.length b rfl hb
  intro n
  induction n using Nat.strong_induction_on with
  | _ n ih =>
    intro b hn hb
    cases b with
    | nil => exact absurd rfl hb
    | cons x xs =>
      rw [splitChunks]
      by_cases hrest : xs.drop (c - 1) = []
      · have hxs : xs.length ≤ c - 1 := by
          by_contra hgt
          have hne2 : xs.drop (c - 1) ≠ [] := by
            simp [List.drop_eq_nil_iff]
            omega
          exact hne2 hrest
        rw [hrest]
        have hlen : (x :: xs.take (c - 1)).length = xs.length + 1 := by
          simp [List.length_take]
          omega
        rw [show splitChunks c ([] : Bytes) = [] from by simp [splitChunks]]
        show some (x :: xs.take (c - 1)).length
          = some (if (x :: xs).length % c = 0 then c else (x :: xs).length % c)
        rw [hlen]
        by_cases hfull : xs.length + 1 = c
        · simp [List.length_cons, hfull, Nat.mod_self]
        · have hltc : (x :: xs).length < c := by simp; omega
          rw [Nat.mod_eq_of_lt hltc]
          simp
      · have hne : splitChunks c (xs.drop (c - 1)) ≠ [] := by
          simpa [splitChunks_eq_nil_iff] using hrest
        have hxs : c - 1 < xs.length := by
          by_contra hgt
          exact hrest (List.drop_eq_nil_of_le (by omega))
        have hlt : (xs.drop (c - 1)).length < n := by
          subst hn; simp [List.length_drop]; omega
        obtain ⟨r0, rs, hr⟩ := List.exists_cons_of_ne_nil hne
        rw [hr, List.getLast?_cons_cons, ← hr]
        rw [ih _ hlt (xs.drop (c - 1)) rfl hrest]
        have harith : (xs.drop (c - 1)).length = (x :: xs).length - c := by
          simp [List.length_drop]
          omega
        have hge : c ≤ (x :: xs).length := by simp; omega
        rw [harith]
        have hmod : ((x :: xs).length - c) % c = (x :: xs).length % c := by
          conv_rhs => rw [Nat.mod_eq_sub_mod hge]
        rw [hmod]

theorem withOffsets_map_snd (c : Nat) (start : Nat) (l : List Bytes) :
    (withOffsets c start l).map Prod.snd = l := by
  induction l generalizing start with
  | nil => simp [withOffsets]
  | cons b bs ih => simp [withOffsets, ih]

theorem withOffsets_length (c : Nat) (start : Nat) (l : List Bytes) :
    (withOffsets c start l).length = l.length := by
  induction l generalizing start with
  | nil => simp [withOffsets]
  | cons b bs ih => simp [withOffsets, ih]

theorem withOffsets_get_fst (c : Nat) (start : Nat) (l : List Bytes)
    (i : Nat) (h : i < (withOffsets c start l).length) :
    ((withOffsets c start l).get ⟨i, h⟩).1 = start + i * c := by
  induction l generalizing start i with
  | nil => simp [withOffsets] at h
  | cons b bs ih =>
    cases i with
    | zero => simp [withOffsets]
    | succ j =>
      have h' : j < (withOffsets c (start + c) bs).length := by
        simpa [withOffsets] using h
      have := ih (start + c) j h'
      simp only [withOffsets, List.get_cons_succ]
      rw [this, Nat.succ_mul]
      omega

theorem withOffsets_eq_nil_iff (c : Nat) (start : Nat) (l : List Bytes) :
    withOffsets c start l = [] ↔ l = [] := by
  cases l <;> simp [withOffsets]

theorem withOffsets_getLast?_snd (c : Nat) (start : Nat) (l : List Bytes) :
    (withOffsets c start l).getLast?.map Prod.snd = l.getLast? := by
  induction l generalizing start with
  | nil => simp [withOffsets]
  | cons b bs ih =>
    cases bs with
    | nil => simp [withOffsets]
    | cons b2 bs2 =>
      have := ih (start + c)
      simp only [withOffsets] at this ⊢
      rw [List.getLast?_cons_cons, List.getLast?_cons_cons, this]

theorem withOffsets_dropLast_snd (c : Nat) (start : Nat) (l : List Bytes) :
    ∀ p ∈ (withOffsets c start l).dropLast, p.2 ∈ l.dropLast := by
  induction l generalizing start with
  | nil => simp [withOffsets]
  | cons b bs ih =>
    cases bs with
    | nil => simp [withOffsets]
    | cons b2 bs2 =>
      intro p hp
      simp only [withOffsets] at hp
      rw [List.dropLast_cons₂] at hp
      rcases List.mem_cons.mp hp with h0 | h1
      · subst h0
        simp [List.dropLast_cons₂]
      · have hmem := ih (start + c) p (by simpa [withOffsets] using h1)
        simp only [List.dropLast_cons₂]
        exact List.mem_cons_of_mem _ hmem

theorem uploadChunksAux_eq (file : Bytes) (c : Nat) (hc : 0 < c) :
    ∀ (fuel offset : Nat), c ∣ offset → file.length - offset < fuel →
      uploadChunksAux file file.length c fuel offset
        = .ok (withOffsets c offset (splitChunks c (file.drop offset))) := by
  intro fuel
  induction fuel with
  | zero => intro offset _ h; omega
  | succ fuel ih =>
    intro offset hdvd hfuel
    by_cases hlt : offset < file.length
    · have hdroplen : (file.drop offset).length = file.length - offset := by
        simp [List.length_drop]
      have hne : file.drop offset ≠ [] := by
        simp [List.drop_eq_nil_iff]
        omega
      by_cases hfit : offset + c ≤ file.length
      · have hnoshort : ¬ ((file.drop offset).length < c) := by omega
        have hrec := ih (offset + c) (hdvd.add (dvd_refl c)) (by omega)
        rw [uploadChunksAux]
        simp only [if_pos hlt, if_pos hfit, if_neg hnoshort, hrec]
        rw [splitChunks_cons_of_pos c hc _ hne]
        rw [List.drop_drop]
        rfl
      · have hrec := ih (offset + c) (hdvd.add (dvd_refl c)) (by omega)
        obtain ⟨q, hq⟩ := id hdvd
        have hsub : file.length - offset < c := by omega
        have h1 : file.length = (file.length - offset) + c * q := by
          rw [← hq]
          omega
        have hmod : file.length % c = file.length - offset := by
          conv_lhs => rw [h1]
          rw [Nat.add_mul_mod_self_left]
          exact Nat.mod_eq_of_lt hsub
        have hnoshort : ¬ ((file.drop offset).length < file.length % c) := by
          omega
        rw [uploadChunksAux]
        simp only [if_pos hlt, if_neg hfit, if_neg hnoshort, hrec]
        have hdropnil : file.drop (offset + c) = [] :=
          List.drop_eq_nil_of_le (by omega)
        rw [hdropnil]
        rw [show splitChunks c ([] : Bytes) = [] from by simp [splitChunks]]
        rw [splitChunks_cons_of_pos c hc _ hne]
        have htail : (file.drop offset).drop c = [] :=
          List.drop_eq_nil_of_le (by omega)
        have htake : (file.drop offset).take c = file.drop offset :=
          List.take_of_length_le (by omega)
        have htake2 : (file.drop offset).take (file.length % c)
            = file.drop offset :=
          List.take_of_length_le (by omega)
        rw [htail, htake, htake2]
        rw [show splitChunks c ([] : Bytes) = [] from by simp [splitChunks]]
        rfl
    · have hdropnil : file.drop offset = [] :=
        List.drop_eq_nil_of_le (by omega)
      rw [uploadChunksAux]
      simp only [if_neg hlt, hdropnil]
      rw [show splitChunks c ([] : Bytes) = [] from by simp [splitChunks]]
      rfl

theorem uploadChunks_eq (file : Bytes) (c : Nat) (hc : 0 < c) :
    uploadChunks file file.length c
      = .ok (withOffsets c 0 (splitChunks c file)) := by
  have h := uploadChunksAux_eq file c hc (file.length + 1) 0 (dvd_zero c)
    (by omega)
  simpa [uploadChunks] using h

/-- Claim C4: splitting a blob by the upload path's chunking at a fixed
positive chunk size and concatenating the chunks in their declared order
reproduces the blob exactly, so re-splitting the reconstruction with the
same chunk size yields the identical ordered digest sequence (for any
chunk digest function). -/
theorem uploadChunks_roundtrip_digests (b : Bytes) (c : Nat)
    (digestFn : Client.DigestFn) (hc : 0 < c) :
    ∃ l, uploadChunks b b.length c = .ok l ∧
      (l.map Prod.snd).flatten = b ∧
      ∃ l2, uploadChunks ((l.map Prod.snd).flatten)
          ((l.map Prod.snd).flatten).length c = .ok l2 ∧
        (l2.map Prod.snd).map digestFn = (l.map Prod.snd).map digestFn := by
  have heq : ((withOffsets c 0 (splitChunks c b)).map Prod.snd).flatten
      = b := by
    rw [withOffsets_map_snd, splitChunks_flatten]
  refine ⟨withOffsets c 0 (splitChunks c b), uploadChunks_eq b c hc, heq,
    withOffsets c 0 (splitChunks c b), ?_, rfl⟩
  rw [heq]
  exact uploadChunks_eq b c hc

theorem uploadChunks_roundtrip_digests_witness :
    0 < 2 ∧
    (∃ l, uploadChunks [1, 2, 3] ([1, 2, 3] : Bytes).length 2 = .ok l ∧
      (l.map Prod.snd).flatten = [1, 2, 3] ∧
      ∃ l2, uploadChunks ((l.map Prod.snd).flatten)
          ((l.map Prod.snd).flatten).length 2 = .ok l2 ∧
        (l2.map Prod.snd).map (fun bs => toString bs)
          = (l.map Prod.snd).map (fun bs => toString bs)) :=
  ⟨by decide,
   uploadChunks_roundtrip_digests [1, 2, 3] 2 (fun bs => toString bs)
     (by decide)⟩

/-- Claim C8 (amended): for a file of size `S > 0` and chunk size `C > 0`
the upload path produces consecutive chunks covering the file in order at
offsets `0, C, 2C, ...`; every chunk except possibly the last has length
exactly `C`, and the final chunk has length `S mod C` when `C` does not
divide `S` (which is the full size `S` when `S < C`), and length exactly
`C` when `C` divides `S`. -/
theorem uploadChunks_shape (file : Bytes) (size c : Nat)
    (h1 : size = file.length) (h2 : 0 < size) (h3 : 0 < c) :
    ∃ l, uploadChunks file size c = .ok l ∧
      (l.map Prod.snd).flatten = file ∧
      (∀ i (h : i < l.length), (l.get ⟨i, h⟩).1 = i * c) ∧
      (∀ p ∈ l.dropLast, p.2.length = c) ∧
      l.getLast?.map (fun p => p.2.length)
        = some (if size % c = 0 then c else size % c) := by
  subst h1
  refine ⟨withOffsets c 0 (splitChunks c file), uploadChunks_eq file c h3,
    ?_, ?_, ?_, ?_⟩
  · rw [withOffsets_map_snd, splitChunks_flatten]
  · intro i h
    have h0 := withOffsets_get_fst c 0 (splitChunks c file) i h
    simpa using h0
  · intro p hp
    exact splitChunks_dropLast_length c h3 file _
      (withOffsets_dropLast_snd c 0 (splitChunks c file) p hp)
  · have hfne : file ≠ [] := by
      intro h
      subst h
      simp at h2
    calc (withOffsets c 0 (splitChunks c file)).getLast?.map
          (fun p => p.2.length)
        = ((withOffsets c 0 (splitChunks c file)).getLast?.map
            Prod.snd).map List.length := by
          cases (withOffsets c 0 (splitChunks c file)).getLast? <;> rfl
      _ = (splitChunks c file).getLast?.map List.length := by
          rw [withOffsets_getLast?_snd]
      _ = some (if file.length % c = 0 then c else file.length % c) :=
          splitChunks_getLast_length c h3 file hfne

theorem uploadChunks_shape_witness :
    ((3 : Nat) = ([7, 7, 7] : Bytes).length ∧ 0 < 3 ∧ 0 < 2) ∧
    (∃ l, uploadChunks [7, 7, 7] 3 2 = .ok l ∧
      (l.map Prod.snd).flatten = [7, 7, 7] ∧
      (∀ i (h : i < l.length), (l.get ⟨i, h⟩).1 = i * 2) ∧
      (∀ p ∈ l.dropLast, p.2.length = 2) ∧
      l.getLast?.map (fun p => p.2.length)
        = some (if 3 % 2 = 0 then 2 else 3 % 2)) :=
  ⟨⟨by decide, by decide, by decide⟩,
   uploadChunks_shape [7, 7, 7] 3 2 (by decide) (by decide) (by decide)⟩

/-- Claim C8 as stated is false when the chunk size divides the total
size: for the two-byte file `[7, 7]` at chunk size 1 the upload path's
final chunk has length 1, while the claim's wording demands `2 mod 1 = 0`
(and the full-size escape needs `2 < 1`). -/
theorem uploadChunks_final_len_counterexample :
    uploadChunks [7, 7] 2 1 = .ok [(0, [7]), (1, [7])] ∧
    ([(0, ([7] : Bytes)), (1, [7])]).getLast?.map (fun p => p.2.length)
      = some 1 ∧
    ¬ finalChunkLenClaim 2 1 1 := by
  refine ⟨by rfl, by rfl, ?_⟩
  intro h
  rcases h with h | ⟨h, _⟩
  · simp at h
  · omega

/-- Claim C9 (amended): the validity check `ImageManifest.Ok` accepts a
manifest exactly when its `Id` passes identifier validation, its `Size`
is nonzero and its `Blobsum` is a well-formed digest; in particular a
manifest with `Size = 0` is rejected, but negative sizes are accepted. -/
theorem imageManifest_ok_iff (imf : Storage.ImageManifest) :
    imf.Ok = true ↔
      ((ParseImageId imf.Id).isSome = true ∧ imf.Size ≠ 0
        ∧ IsBlobDigest imf.Blobsum = true) := by
  unfold Storage.ImageManifest.Ok
  rcases h : ParseImageId imf.Id with _ | v
  · simp [h]
  · by_cases h2 : imf.Size = 0 <;> simp [h, h2]

/-- Claim C9 as stated is false: a manifest whose `Size` is `-1` (hence
not strictly positive) passes the validity check, because the source only
compares `Size` with zero. -/
theorem imageManifest_ok_counterexample :
    (Storage.ImageManifest.Ok
      ⟨"sha256:abc", [], "sha256:def", "", "", "x86", "", -1, "foo"⟩)
      = true ∧ (-1 : Int) ≤ 0 :=
  ⟨by rfl, by decide⟩

/-- Claim C10: the result of `GetBlobPathSpec` is independent of its name
argument; for every digest and any two names the outcome (path or
invalid-digest error) is the same, depending only on the digest. -/
theorem getBlobPathSpec_name_independent (n1 n2 digest : String) :
    Storage.GetBlobPathSpec n1 digest = Storage.GetBlobPathSpec n2 digest :=
  rfl

/-- Claim C7: calling `PrepareBlobUpload` when a complete blob already
exists at the canonical path for the expected digest returns a Conflict
error and leaves the store untouched, so no session-keyed digest record
is persisted. -/
theorem prepareBlobUpload_conflict (st : Storage.Store) (name : String)
    (info : Storage.UploadInfo) (uu : String)
    (h : Storage.stat st
      (Storage.blobDigestPathSpec (strTrim info.Digest)) = true) :
    Storage.PrepareBlobUpload st name info uu
      = (st, .error (.conflict (strTrim info.Digest))) := by
  unfold Storage.PrepareBlobUpload
  simp [h]

theorem prepareBlobUpload_conflict_witness :
    Storage.stat [("blobs/sha256:ab", Storage.Content.text "x")]
        (Storage.blobDigestPathSpec (strTrim "sha256:ab")) = true ∧
    Storage.PrepareBlobUpload
        [("blobs/sha256:ab", Storage.Content.text "x")] "foo"
        ⟨"sha256:ab"⟩ "uuid-1"
      = ([("blobs/sha256:ab", Storage.Content.text "x")],
         .error (.conflict (strTrim "sha256:ab"))) :=
  ⟨by rfl,
   prepareBlobUpload_conflict
     [("blobs/sha256:ab", Storage.Content.text "x")] "foo"
     ⟨"sha256:ab"⟩ "uuid-1" (by rfl)⟩

/-- Claim C5: for a digest-shaped reference, a prefix matching exactly
one stored manifest entry resolves to that manifest, a prefix matching
zero entries yields NotFound, and a prefix matching two or more yields
Ambiguous. -/
theorem getManifest_digest_trichotomy (st : Storage.Store)
    (name ref : String) (href : IsDigest (strToLower ref) = true) :
    (manifestPre st name ref = [] →
      Storage.GetManifest st name ref = .error .notFound) ∧
    (∀ k m, manifestPre st name ref = [k] →
      alookup st k = some (.manifest m) → m.Ok = true →
      Storage.GetManifest st name ref = .ok m) ∧
    (∀ k1 k2 rest, manifestPre st name ref = k1 :: k2 :: rest →
      Storage.GetManifest st name ref
        = .error (.ambiguous (strToLower ref))) := by
  refine ⟨?_, ?_, ?_⟩
  · intro h
    rw [manifestPre] at h
    simp only [Storage.GetManifest, Storage.driverList, href, if_true, h]
  · intro k m h hm hok
    rw [manifestPre] at h
    simp only [Storage.GetManifest, Storage.driverList, href, if_true, h,
      Storage.getImageJson, Storage.getContent, hm, hok]
  · intro k1 k2 rest h
    rw [manifestPre] at h
    simp only [Storage.GetManifest, Storage.driverList, href, if_true, h]

theorem getManifest_digest_trichotomy_witness :
    IsDigest (strToLower "sha256:ab") = true ∧
    ((manifestPre c5Store "foo" "sha256:ab" = [] →
      Storage.GetManifest c5Store "foo" "sha256:ab" = .error .notFound) ∧
    (∀ k m, manifestPre c5Store "foo" "sha256:ab" = [k] →
      alookup c5Store k = some (.manifest m) → m.Ok = true →
      Storage.GetManifest c5Store "foo" "sha256:ab" = .ok m) ∧
    (∀ k1 k2 rest,
      manifestPre c5Store "foo" "sha256:ab" = k1 :: k2 :: rest →
      Storage.GetManifest c5Store "foo" "sha256:ab"
        = .error (.ambiguous (strToLower "sha256:ab")))) :=
  ⟨by rfl, getManifest_digest_trichotomy c5Store "foo" "sha256:ab" (by rfl)⟩

/-- Claim C2 evaluated at its failing input: `PutManifest([], "foo",
"latest", m)` with `m.Id = "sha256:abc"` reports success, but the source
(line 169 of `searcher.go`) builds the manifest and tag paths from the
manifest id instead of the `name` argument, so the writes land under
`"sha256:abc"`: `ListTags("foo")` comes back empty and
`GetManifest("foo", "latest")` fails with the driver's not-found error. -/
theorem putManifest_not_visible_under_name :
    (Storage.PutManifest [] "foo" "latest" demoManifest).2 = .ok () ∧
    (Storage.PutManifest [] "foo" "latest" demoManifest).1
      = [(Storage.imageJsonPathSpec "sha256:abc" "sha256:abc",
          .manifest demoManifest),
         (Storage.tagPathSpec "sha256:abc" "latest", .text "sha256:abc")] ∧
    Storage.ListTags
        (Storage.PutManifest [] "foo" "latest" demoManifest).1 "foo"
      = .ok [] ∧
    Storage.GetManifest
        (Storage.PutManifest [] "foo" "latest" demoManifest).1 "foo" "latest"
      = .error (.driver .pathNotFound) :=
  ⟨by rfl, by rfl, by rfl, by rfl⟩

/-- Claim C3 evaluated at its scenario: with ancestor A local and B, C
remote, `buildChain` collects `[C, B]` as intended, but `Pull` then runs
its reversal loop with `j` starting at `len(imfs)` (source line 56), reads
one past the end of the slice and panics before any blob is fetched or
committed; the filesystem is returned unchanged. -/
theorem pull_chain_scenario_crashes :
    Client.buildChain chainServer chainFS 5 chainC = .ok [chainC, chainB] ∧
    Client.Pull chainServer (fun _ => "") (fun _ => none)
        (fun _ _ => .error "unused") 5 chainFS "repo" "C"
      = (chainFS, .crash "index out of range") :=
  ⟨by rfl, by decide⟩

/-- Claim C6 evaluated at its failing input: when the leaf manifest
resolves but fetching the parent's manifest fails, `buildChain` returns
that error and `Pull` answers it with `return nil` (source line 53), so
the sub-step failure is swallowed and the caller sees success. -/
theorem pull_swallows_buildchain_error :
    Client.getImageManifest brokenParentServer "repo" "sha256:bb"
      = .error "manifest not found" ∧
    Client.buildChain brokenParentServer [] 5 chainC
      = .error "manifest not found" ∧
    Client.Pull brokenParentServer (fun _ => "") (fun _ => none)
        (fun _ _ => .error "unused") 5 [] "repo" "C"
      = ([], .ok) :=
  ⟨by rfl, by rfl, by rfl⟩

theorem downloadChunk_outside (digestFn : Client.DigestFn) (net : Client.Net)
    (fs : Client.FS) (dldir : Client.Path) (c route : String)
    (p : Client.Path) (hp : p ≠ dldir ++ [c]) :
    alookup (Client.downloadChunk digestFn net fs dldir c route).1 p
      = alookup fs p := by
  unfold Client.downloadChunk
  cases hck : Client.checkChunkDigest digestFn fs (dldir ++ [c]) c with
  | ok u => simp [hck]
  | error e =>
    have hne : dldir ++ [c] ≠ p := fun hh => hp hh.symm
    cases hnet : net route with
    | none =>
      by_cases hex : (alookup fs (dldir ++ [c])).isSome <;>
        simp [hck, hnet, hex, alookup_aupdate_ne _ _ _ _ hne]
    | some body =>
      by_cases hex : (alookup fs (dldir ++ [c])).isSome <;>
        simp [hck, hnet, hex, alookup_aupdate_ne _ _ _ _ hne]

theorem downloadChunk_spec (digestFn : Client.DigestFn) (net : Client.Net)
    (fs : Client.FS) (dldir : Client.Path) (c route : String)
    (h : (Client.downloadChunk digestFn net fs dldir c route).2 = .ok ()) :
    ∀ p, alookup (Client.downloadChunk digestFn net fs dldir c route).1 p
        = alookup fs p ∨
      (p = dldir ++ [c] ∧ ∃ body, net route = some body ∧
        alookup (Client.downloadChunk digestFn net fs dldir c route).1 p
          = some body) := by
  intro p
  unfold Client.downloadChunk at h ⊢
  cases hck : Client.checkChunkDigest digestFn fs (dldir ++ [c]) c with
  | ok u => left; simp [hck]
  | error e =>
    simp only [hck] at h ⊢
    cases hnet : net route with
    | none => simp [hnet] at h
    | some body =>
      simp only [hnet]
      by_cases hp : p = dldir ++ [c]
      · right
        subst hp
        exact ⟨rfl, body, rfl, by simp [alookup_aupdate]⟩
      · left
        have hne : dldir ++ [c] ≠ p := fun hh => hp hh.symm
        by_cases hex : (alookup fs (dldir ++ [c])).isSome <;>
          simp [hex, alookup_aupdate_ne _ _ _ _ hne]

theorem downloadChunksLoop_outside (digestFn : Client.DigestFn)
    (net : Client.Net) (name tophash : String) :
    ∀ (chunks : List String) (fs : Client.FS) (p : Client.Path),
      (∀ c, p ≠ Client.GetBlobDownloadDir name tophash ++ [c]) →
      alookup (Client.downloadChunksLoop digestFn net name tophash
        (Client.GetBlobDownloadDir name tophash) fs chunks).1 p
        = alookup fs p := by
  intro chunks
  induction chunks with
  | nil => intro fs p _; rfl
  | cons c0 rest ih =>
    intro fs p hp
    have hout := downloadChunk_outside digestFn net fs
      (Client.GetBlobDownloadDir name tophash) c0
      (Client.GetBlobChunkRoute name tophash c0) p (hp c0)
    rcases hdc : Client.downloadChunk digestFn net fs
        (Client.GetBlobDownloadDir name tophash) c0
        (Client.GetBlobChunkRoute name tophash c0) with ⟨fs1, r⟩
    rw [hdc] at hout
    cases r with
    | error e =>
      simp only [Client.downloadChunksLoop, hdc]
      exact hout
    | ok u =>
      cases u
      cases hck : Client.checkChunkDigest digestFn fs1
          (Client.GetBlobDownloadDir name tophash ++ [c0]) c0 with
      | error e =>
        simp only [Client.downloadChunksLoop, hdc, hck]
        exact hout
      | ok v =>
        cases v
        simp only [Client.downloadChunksLoop, hdc, hck]
        rw [ih fs1 p hp]
        exact hout

theorem downloadChunksLoop_bad_error (digestFn : Client.DigestFn)
    (net : Client.Net) (name tophash : String) :
    ∀ (chunks : List String) (fs : Client.FS),
      (∀ c b, alookup fs (Client.GetBlobDownloadDir name tophash ++ [c])
          = some b →
        net (Client.GetBlobChunkRoute name tophash c) = some b) →
      (∃ c ∈ chunks, ∃ bb,
        net (Client.GetBlobChunkRoute name tophash c) = some bb ∧
        digestFn bb ≠ c) →
      ∃ e, (Client.downloadChunksLoop digestFn net name tophash
        (Client.GetBlobDownloadDir name tophash) fs chunks).2 = .error e := by
  intro chunks
  induction chunks with
  | nil =>
    intro fs _ hbad
    simp at hbad
  | cons c0 rest ih =>
    intro fs hinv hbad
    by_cases hb0 : ∃ bb, net (Client.GetBlobChunkRoute name tophash c0)
        = some bb ∧ digestFn bb ≠ c0
    · obtain ⟨bb, hnet, hdne⟩ := hb0
      cases halo : alookup fs
          (Client.GetBlobDownloadDir name tophash ++ [c0]) with
      | none =>
        have hck1 : Client.checkChunkDigest digestFn fs
            (Client.GetBlobDownloadDir name tophash ++ [c0]) c0
            = .error "open failed" := by
          unfold Client.checkChunkDigest
          rw [halo]
        have hdc : Client.downloadChunk digestFn net fs
            (Client.GetBlobDownloadDir name tophash) c0
            (Client.GetBlobChunkRoute name tophash c0)
            = (aupdate (aupdate fs
                (Client.GetBlobDownloadDir name tophash ++ [c0]) [])
                (Client.GetBlobDownloadDir name tophash ++ [c0]) bb,
               .ok ()) := by
          simp [Client.downloadChunk, hck1, halo, hnet]
        have hlook : alookup (aupdate (aupdate fs
            (Client.GetBlobDownloadDir name tophash ++ [c0]) [])
            (Client.GetBlobDownloadDir name tophash ++ [c0]) bb)
            (Client.GetBlobDownloadDir name tophash ++ [c0]) = some bb := by
          simp [alookup_aupdate]
        have hck2 : Client.checkChunkDigest digestFn
            (aupdate (aupdate fs
              (Client.GetBlobDownloadDir name tophash ++ [c0]) [])
              (Client.GetBlobDownloadDir name tophash ++ [c0]) bb)
            (Client.GetBlobDownloadDir name tophash ++ [c0]) c0
            = .error "image digest mismatch" := by
          unfold Client.checkChunkDigest
          rw [hlook]
          simp [hdne]
        refine ⟨"chunk " ++ c0 ++ " corrupted: " ++ "image digest mismatch",
          ?_⟩
        simp only [Client.downloadChunksLoop, hdc, hck2]
      | some b =>
        have hnetb := hinv c0 b halo
        have hbb : bb = b := by
          rw [hnetb] at hnet
          exact (Option.some.inj hnet).symm
        subst hbb
        have hck1 : Client.checkChunkDigest digestFn fs
            (Client.GetBlobDownloadDir name tophash ++ [c0]) c0
            = .error "image digest mismatch" := by
          unfold Client.checkChunkDigest
          rw [halo]
          simp [hdne]
        have hdc : Client.downloadChunk digestFn net fs
            (Client.GetBlobDownloadDir name tophash) c0
            (Client.GetBlobChunkRoute name tophash c0)
            = (aupdate fs
                (Client.GetBlobDownloadDir name tophash ++ [c0]) bb,
               .ok ()) := by
          simp [Client.downloadChunk, hck1, halo, hnet]
        have hlook : alookup (aupdate fs
            (Client.GetBlobDownloadDir name tophash ++ [c0]) bb)
            (Client.GetBlobDownloadDir name tophash ++ [c0]) = some bb := by
          simp [alookup_aupdate]
        have hck2 : Client.checkChunkDigest digestFn
            (aupdate fs (Client.GetBlobDownloadDir name tophash ++ [c0]) bb)
            (Client.GetBlobDownloadDir name tophash ++ [c0]) c0
            = .error "image digest mismatch" := by
          unfold Client.checkChunkDigest
          rw [hlook]
          simp [hdne]
        refine ⟨"chunk " ++ c0 ++ " corrupted: " ++ "image digest mismatch",
          ?_⟩
        simp only [Client.downloadChunksLoop, hdc, hck2]
    · obtain ⟨c, hc, bb, h1, h2⟩ := hbad
      rcases List.mem_cons.mp hc with hc0 | hcr
      · exact absurd ⟨bb, hc0 ▸ h1, hc0 ▸ h2⟩ hb0
      · rcases hdc : Client.downloadChunk digestFn net fs
            (Client.GetBlobDownloadDir name tophash) c0
            (Client.GetBlobChunkRoute name tophash c0) with ⟨fs1, r⟩
        cases r with
        | error e =>
          exact ⟨e, by simp only [Client.downloadChunksLoop, hdc]⟩
        | ok u =>
          cases u
          cases hck : Client.checkChunkDigest digestFn fs1
              (Client.GetBlobDownloadDir name tophash ++ [c0]) c0 with
          | error e =>
            refine ⟨"chunk " ++ c0 ++ " corrupted: " ++ e, ?_⟩
            simp only [Client.downloadChunksLoop, hdc, hck]
          | ok v =>
            cases v
            have hspec := downloadChunk_spec digestFn net fs
              (Client.GetBlobDownloadDir name tophash) c0
              (Client.GetBlobChunkRoute name tophash c0) (by rw [hdc])
            have hinv1 : ∀ c' b', alookup fs1
                (Client.GetBlobDownloadDir name tophash ++ [c'])
                = some b' →
                net (Client.GetBlobChunkRoute name tophash c')
                  = some b' := by
              intro c' b' hlk
              rcases hspec (Client.GetBlobDownloadDir name tophash ++ [c'])
                with hsame | ⟨heq, body, hnetb, hlkb⟩
              · rw [hdc] at hsame
                exact hinv c' b' (hsame ▸ hlk)
              · have hcc : c' = c0 := by
                  have hsing := List.append_cancel_left heq
                  simpa using hsing
                subst hcc
                rw [hdc] at hlkb
                rw [hlk] at hlkb
                rw [hlkb]
                exact hnetb
            obtain ⟨e, he⟩ := ih fs1 hinv1 ⟨c, hcr, bb, h1, h2⟩
            refine ⟨e, ?_⟩
            simp only [Client.downloadChunksLoop, hdc, hck]
            exact he

/-- Claim C1: when any chunk of the ordered chunk-digest list is corrupted
in transit (the transport delivers bytes whose recomputed digest differs
from the declared digest, and the scratch directory holds nothing but
transport-delivered bytes), the download returns an error and the
canonical blob path and the per-image file path are left exactly as they
were: no partially-written blob becomes visible under its final name. -/
theorem doPull_corrupted_chunk_no_commit
    (digestFn : Client.DigestFn) (net : Client.Net)
    (fbm : Client.BlobManifestFetch) (fs : Client.FS)
    (imf : Client.ImageManifest) (bmf : Client.BlobManifest)
    (hfbm : fbm imf.Name imf.Blobsum = .ok bmf)
    (hscratch : ∀ c b, alookup fs
        (Client.GetBlobDownloadDir imf.Name imf.Blobsum ++ [c]) = some b →
      net (Client.GetBlobChunkRoute imf.Name imf.Blobsum c) = some b)
    (hbad : ∃ c ∈ bmf.Chunks, ∃ bb,
      net (Client.GetBlobChunkRoute imf.Name imf.Blobsum c) = some bb ∧
      digestFn bb ≠ c) :
    (∃ e, (Client.doPull digestFn net fbm fs imf).2 = .error e) ∧
    alookup (Client.doPull digestFn net fbm fs imf).1
        (Client.GetImageBlobPath imf.Name imf.Blobsum)
      = alookup fs (Client.GetImageBlobPath imf.Name imf.Blobsum) ∧
    alookup (Client.doPull digestFn net fbm fs imf).1
        (Client.GetImageFilePath imf.Name imf.Id)
      = alookup fs (Client.GetImageFilePath imf.Name imf.Id) := by
  obtain ⟨e, he⟩ := downloadChunksLoop_bad_error digestFn net
    imf.Name imf.Blobsum bmf.Chunks fs hscratch hbad
  rcases hloop : Client.downloadChunksLoop digestFn net imf.Name imf.Blobsum
      (Client.GetBlobDownloadDir imf.Name imf.Blobsum) fs bmf.Chunks
    with ⟨fs1, r⟩
  rw [hloop] at he
  have hr : r = .error e := he
  subst hr
  have hdl : Client.downloadChunks digestFn net fs bmf imf.Name imf.Blobsum
      = (fs1, .error e) := by
    simp only [Client.downloadChunks, hloop]
  have hdp : Client.doPull digestFn net fbm fs imf = (fs1, .error e) := by
    simp only [Client.doPull, hfbm, hdl]
  rw [hdp]
  refine ⟨⟨e, rfl⟩, ?_, ?_⟩
  · have hout := downloadChunksLoop_outside digestFn net imf.Name imf.Blobsum
      bmf.Chunks fs (Client.GetImageBlobPath imf.Name imf.Blobsum) ?_
    · rw [hloop] at hout
      exact hout
    · intro c h
      simp [Client.GetImageBlobPath, Client.GetBlobDownloadDir] at h
  · have hout := downloadChunksLoop_outside digestFn net imf.Name imf.Blobsum
      bmf.Chunks fs (Client.GetImageFilePath imf.Name imf.Id) ?_
    · rw [hloop] at hout
      exact hout
    · intro c h
      simp [Client.GetImageFilePath, Client.GetBlobDownloadDir] at h

theorem doPull_corrupted_chunk_no_commit_witness :
    (demoFbm chainC.Name chainC.Blobsum
        = .ok ⟨["c1"]⟩ ∧
      (∀ c b, alookup ([] : Client.FS)
          (Client.GetBlobDownloadDir chainC.Name chainC.Blobsum ++ [c])
          = some b →
        demoNet (Client.GetBlobChunkRoute chainC.Name chainC.Blobsum c)
          = some b) ∧
      (∃ c ∈ (⟨["c1"]⟩ : Client.BlobManifest).Chunks, ∃ bb,
        demoNet (Client.GetBlobChunkRoute chainC.Name chainC.Blobsum c)
          = some bb ∧ demoDigest bb ≠ c)) ∧
    ((∃ e, (Client.doPull demoDigest demoNet demoFbm [] chainC).2
        = .error e) ∧
      alookup (Client.doPull demoDigest demoNet demoFbm [] chainC).1
          (Client.GetImageBlobPath chainC.Name chainC.Blobsum)
        = alookup ([] : Client.FS)
            (Client.GetImageBlobPath chainC.Name chainC.Blobsum) ∧
      alookup (Client.doPull demoDigest demoNet demoFbm [] chainC).1
          (Client.GetImageFilePath chainC.Name chainC.Id)
        = alookup ([] : Client.FS)
            (Client.GetImageFilePath chainC.Name chainC.Id)) :=
  ⟨⟨by rfl, fun c b h => by simp [alookup] at h,
    ⟨"c1", by simp, [9], by rfl, by decide⟩⟩,
   doPull_corrupted_chunk_no_commit demoDigest demoNet demoFbm [] chainC
     ⟨["c1"]⟩ (by rfl) (fun c b h => by simp [alookup] at h)
     ⟨"c1", by simp, [9], by rfl, by decide⟩⟩
